import Mathlib

/-!
Verification of the read-through / write-invalidate caching layer of the
users resource (Django app): cache key policy, key-value store operations,
tagging index (`cache_with_tags` / `invalidate_by_tag`), change-notification
signal hooks, read-through view handlers, stats and flush admin surface.

The key-value store (Django cache over Redis) is modelled as an association
list from string keys to entries carrying a value and the TTL it was stored
with.  TTL expiry itself is handled by the external store and is not part of
the application code; we record the TTL that each `set` writes, which is what
the source passes to `cache.set(key, value, timeout)`.
-/

namespace PyBreak

/-- A user record of the system of record (`users.models.User`): an integer
primary key plus opaque serializable content, modelled as a string. -/
structure User where
  id : Nat
  name : String
deriving DecidableEq, Repr

/-- A value held in the cache.  Django's cache is heterogeneous: the views
store serialized single users and serialized user lists, the tagging utility
stores sets of key strings, and Python's `None` is representable as a stored
value (and is indistinguishable from absence through `cache.get`). -/
inductive CVal where
  | vnone : CVal
  | uData : User → CVal
  | uList : List User → CVal
  | tagSet : List String → CVal
deriving DecidableEq, Repr

/-- A cache entry: the stored value together with the timeout passed to
`cache.set`. -/
structure CEntry where
  val : CVal
  ttl : Nat
deriving DecidableEq, Repr

/-- The key-value store: an association list keyed by strings.  `sset` keeps
keys unique, so the number of keys is the list length. -/
abbrev Store := List (String × CEntry)

/-- `cache.get(key)` at the store level: `some` value when the key is
present, `none` when absent. -/
def sget (st : Store) (k : String) : Option CVal :=
  (st.find? (fun e => e.1 == k)).map (fun e => e.2.val)

/-- Lookup of the full entry (value and stored TTL). -/
def sgetEntry (st : Store) (k : String) : Option CEntry :=
  (st.find? (fun e => e.1 == k)).map (fun e => e.2)

/-- `cache.set(key, value, timeout)`: replaces any previous entry under the
key. -/
def sset (st : Store) (k : String) (v : CVal) (ttl : Nat) : Store :=
  (k, ⟨v, ttl⟩) :: st.filter (fun e => e.1 != k)

/-- `cache.delete(key)`: removes the entry; deleting an absent key is a
no-op. -/
def sdel (st : Store) (k : String) : Store :=
  st.filter (fun e => e.1 != k)

/-- `cache.get(key)` as seen by the view code, where Python returns `None`
both for an absent key and for a stored `None`. -/
def djGet (st : Store) (k : String) : CVal :=
  (sget st k).getD CVal.vnone

theorem find?_filter_ne (st : Store) (k k' : String) (h : k' ≠ k) :
    (st.filter (fun e => e.1 != k)).find? (fun e => e.1 == k')
      = st.find? (fun e => e.1 == k') := by
  induction st with
  | nil => rfl
  | cons e st ih =>
    by_cases hek : e.1 = k
    · have h1 : (e.1 != k) = false := by simp [hek]
      have h2 : (e.1 == k') = false := by simp [hek]; exact fun hc => h hc.symm
      simp [List.filter_cons, h1, List.find?_cons, h2, ih]
    · have h1 : (e.1 != k) = true := by simp [hek]
      by_cases hek' : e.1 = k'
      · have h2 : (e.1 == k') = true := by simp [hek']
        simp only [List.filter_cons, h1, if_true, List.find?_cons, h2]
      · have h2 : (e.1 == k') = false := by simp [hek']
        simp [List.filter_cons, h1, List.find?_cons, h2, ih]

theorem find?_filter_self (st : Store) (k : String) :
    (st.filter (fun e => e.1 != k)).find? (fun e => e.1 == k) = none := by
  induction st with
  | nil => rfl
  | cons e st ih =>
    by_cases hek : e.1 = k
    · have h1 : (e.1 != k) = false := by simp [hek]
      simp [List.filter_cons, h1, ih]
    · have h1 : (e.1 != k) = true := by simp [hek]
      have h2 : (e.1 == k) = false := by simp [hek]
      simp [List.filter_cons, h1, List.find?_cons, h2, ih]

theorem sget_sset_self (st : Store) (k : String) (v : CVal) (t : Nat) :
    sget (sset st k v t) k = some v := by
  simp [sget, sset, List.find?_cons]

theorem sget_sset_ne (st : Store) (k k' : String) (v : CVal) (t : Nat)
    (h : k' ≠ k) : sget (sset st k v t) k' = sget st k' := by
  have h2 : (k == k') = false := by simp; exact fun hc => h hc.symm
  simp only [sget, sset, List.find?_cons, h2]
  rw [find?_filter_ne st k k' h]

theorem sget_sdel_self (st : Store) (k : String) :
    sget (sdel st k) k = none := by
  simp [sget, sdel, find?_filter_self]

theorem sget_sdel_ne (st : Store) (k k' : String) (h : k' ≠ k) :
    sget (sdel st k) k' = sget st k' := by
  simp only [sget, sdel]
  rw [find?_filter_ne st k k' h]

theorem sgetEntry_sset_self (st : Store) (k : String) (v : CVal) (t : Nat) :
    sgetEntry (sset st k v t) k = some ⟨v, t⟩ := by
  simp [sgetEntry, sset, List.find?_cons]

theorem sgetEntry_sset_ne (st : Store) (k k' : String) (v : CVal) (t : Nat)
    (h : k' ≠ k) : sgetEntry (sset st k v t) k' = sgetEntry st k' := by
  have h2 : (k == k') = false := by simp; exact fun hc => h hc.symm
  simp only [sgetEntry, sset, List.find?_cons, h2]
  rw [find?_filter_ne st k k' h]

/-- `get_cache_key(prefix, identifier=None)` from `users/views.py` and
`users/cache_signals.py` (both copies are identical): `"{prefix}_{identifier}"`
when an identifier is given, the bare prefix otherwise. -/
def get_cache_key (pre : String) (identifier : Option String := none) : String :=
  match identifier with
  | some i => pre ++ "_" ++ i
  | none => pre

/-- The (prefix, identifier) pairs this program actually builds keys from:
the collection prefix `user_list` with no identifier, and the singleton
prefix `user` with a non-empty decimal record id. -/
def validKeyArgs (p : String × Option String) : Prop :=
  (p.1 = "user_list" ∧ p.2 = none) ∨
  (p.1 = "user" ∧ ∃ s, p.2 = some s ∧ s.data ≠ [] ∧ s.data.all Char.isDigit = true)

/-- One iteration of the tag loop of `cache_with_tags`: read the current
member set under `tag_{tag}` (the empty set when the tag index is absent),
add the key, and write the whole set back with the same timeout as the data
entry. -/
def tagStep (key : String) (timeout : Nat) (s : Store) (tag : String) : Store :=
  let tagKey := "tag_" ++ tag
  let tagged : List String :=
    match sget s tagKey with
    | some (CVal.tagSet ks) => ks
    | _ => []
  sset s tagKey (CVal.tagSet (tagged.insert key)) timeout

/-- `cache_with_tags(key, data, tags, timeout)` from `users/cache_utils.py`:
set the data entry, then run the tag loop over the given tags. -/
def cache_with_tags (st : Store) (key : String) (data : CVal) (tags : List String)
    (timeout : Nat) : Store :=
  tags.foldl (tagStep key timeout) (sset st key data timeout)

/-- `invalidate_by_tag(tag)` from `users/cache_utils.py`: read the member
set (empty when absent), delete each member key counting them, then delete
the tag index key itself; return the new store and the count. -/
def invalidate_by_tag (st : Store) (tag : String) : Store × Nat :=
  let tagKey := "tag_" ++ tag
  let tagged : List String :=
    match sget st tagKey with
    | some (CVal.tagSet ks) => ks
    | _ => []
  let st := tagged.foldl (fun s k => sdel s k) st
  (sdel st tagKey, tagged.length)

/-- `clear_all_cache()` from `users/cache_utils.py`: enumerate every key in
the store, delete them all, and return how many there were. -/
def clear_all_cache (st : Store) : Store × Nat :=
  let keys := st.map Prod.fst
  (keys.foldl (fun s k => sdel s k) st, keys.length)

/-- The data `get_cache_stats` reads from the Redis client (`keys('*')` and
the hit/miss counters of `INFO`); gathering it can raise, which the caller
sees as the `Except.error` case. -/
structure RedisIntro where
  keys : List String
  keyspace_hits : Nat
  keyspace_misses : Nat
deriving DecidableEq, Repr

/-- The statistics payload built by `get_cache_stats`: either the success
dictionary (we model the fields the claims speak about; the remaining
fields are copied verbatim from `INFO`, and `hit_rate` is a formatted
floating-point string) or the error dictionary
`{error, total_keys: 0, keys: []}`. -/
inductive StatsPayload where
  | stats (total_keys : Nat) (keys : List String)
      (keyspace_hits keyspace_misses : Nat) : StatsPayload
  | err (error : String) (total_keys : Nat) (keys : List String) : StatsPayload
deriving DecidableEq, Repr

/-- The sampled key list of a payload (the `keys` field of either shape). -/
def StatsPayload.sampled : StatsPayload → List String
  | .stats _ ks _ _ => ks
  | .err _ _ ks => ks

/-- `get_cache_stats()` from `users/cache_utils.py`: on successful
introspection report the total key count and the first 100 keys; any
exception is caught and converted to `{error, total_keys: 0, keys: []}`. -/
def get_cache_stats (intro : Except String RedisIntro) : StatsPayload :=
  match intro with
  | .ok info =>
      StatsPayload.stats info.keys.length (info.keys.take 100)
        info.keyspace_hits info.keyspace_misses
  | .error e => StatsPayload.err e 0 []

/-- `cache_stats_view` from `users/views.py`: returns the stats payload as
the HTTP response body. -/
def cache_stats_view (intro : Except String RedisIntro) : StatsPayload :=
  get_cache_stats intro

/-- `invalidate_user_cache_on_save` from `users/cache_signals.py`, the
`post_save` receiver: delete `user_list` and then `user_{instance.id}`. -/
def invalidate_user_cache_on_save (st : Store) (i : Nat) : Store :=
  sdel (sdel st (get_cache_key "user_list")) (get_cache_key "user" (some (toString i)))

/-- `invalidate_user_cache_on_delete` from `users/cache_signals.py`, the
`post_delete` receiver: the same two deletions; `instance.id` is read from
the in-memory instance the signal still carries after the row is gone. -/
def invalidate_user_cache_on_delete (st : Store) (i : Nat) : Store :=
  sdel (sdel st (get_cache_key "user_list")) (get_cache_key "user" (some (toString i)))

/-- `UserSerializer(user).data`: the serialized single-record payload,
opaque to the cache layer. -/
def serialize (u : User) : CVal := CVal.uData u

/-- `UserSerializer(users, many=True).data`: the serialized list payload. -/
def serialize_many (us : List User) : CVal := CVal.uList us

/-- The queryset lookup `super().retrieve` performs: the record with the
given primary key, or absent (which the framework turns into a 404). -/
def db_find (db : List User) (pk : Nat) : Option User :=
  db.find? (fun u => u.id == pk)

/-- Modelled from the spec: the Key-Value Store adapter's failure semantics
(§4.2) are configured outside `src/` (the project's cache settings are not
among the given sources), so the adapter is parameterized by whether the
store is reachable (`up`).  Per the spec, a `get` on an unreachable store
degrades to absent ("treat as miss"). -/
def cache_get (up : Bool) (st : Store) (k : String) : CVal :=
  if up then djGet st k else CVal.vnone

/-- Modelled from the spec: `set` on an unreachable store is a logged no-op
(the write path proceeds; the cache is an optimization, never a
dependency). -/
def cache_set (up : Bool) (st : Store) (k : String) (v : CVal) (ttl : Nat) : Store :=
  if up then sset st k v ttl else st

/-- `UserViewSet.list` from `users/views.py`: read `user_list` from the
cache; on a non-`None` value answer with it, otherwise build the canonical
list payload, cache it with the configured TTL and return the fresh value.
The returned `Bool` records whether the system of record was queried. -/
def listView (up : Bool) (db : List User) (st : Store) (ttl : Nat) :
    CVal × Store × Bool :=
  let ck := get_cache_key "user_list"
  let cached := cache_get up st ck
  if cached ≠ CVal.vnone then (cached, st, false)
  else
    let v := serialize_many db
    (v, cache_set up st ck v ttl, true)

/-- `UserViewSet.retrieve` from `users/views.py`: read `user_{pk}` from the
cache; on a non-`None` value answer with it, otherwise fetch the record
(absent record propagates as a not-found error), serialize it, cache it
with the configured TTL and return the fresh value. -/
def retrieveView (up : Bool) (db : List User) (pk : Nat) (st : Store) (ttl : Nat) :
    Except Unit (CVal × Store × Bool) :=
  let ck := get_cache_key "user" (some (toString pk))
  let cached := cache_get up st ck
  if cached ≠ CVal.vnone then .ok (cached, st, false)
  else
    match db_find db pk with
    | none => .error ()
    | some u =>
      let v := serialize u
      .ok (v, cache_set up st ck v ttl, true)

/-- One step of a mutating handler, in program order: the underlying write
to the system of record (`super().perform_*` / `serializer.save()` /
`instance.delete()`), or a cache delete of a named key. -/
inductive MEvent where
  | dbWrite : MEvent
  | cacheDelete : String → MEvent
deriving DecidableEq, Repr

def MEvent.isDbWrite : MEvent → Bool
  | .dbWrite => true
  | .cacheDelete _ => false

def MEvent.isCacheDelete : MEvent → Bool
  | .dbWrite => false
  | .cacheDelete _ => true

/-- `UserViewSet.perform_create`: write first, then delete `user_list`. -/
def perform_create_trace : List MEvent :=
  [.dbWrite, .cacheDelete (get_cache_key "user_list")]

/-- `UserViewSet.perform_update`: write first, then delete `user_list` and
`user_{id}`. -/
def perform_update_trace (i : Nat) : List MEvent :=
  [.dbWrite,
   .cacheDelete (get_cache_key "user_list"),
   .cacheDelete (get_cache_key "user" (some (toString i)))]

/-- `UserViewSet.perform_destroy`: capture the id, delete `user_list` and
`user_{id}`, and only then perform the underlying delete. -/
def perform_destroy_trace (i : Nat) : List MEvent :=
  [.cacheDelete (get_cache_key "user_list"),
   .cacheDelete (get_cache_key "user" (some (toString i))),
   .dbWrite]

/-- Every cache delete of the trace occurs strictly after the first
underlying write: no delete appears before a write is seen. -/
def deletesAfterWrite (tr : List MEvent) : Bool :=
  (tr.takeWhile (fun e => !(MEvent.isDbWrite e))).all (fun e => !(MEvent.isCacheDelete e))

/-- Every cache delete of the trace occurs strictly before the underlying
write: no delete appears once a write has been seen. -/
def deletesBeforeWrite (tr : List MEvent) : Bool :=
  (tr.dropWhile (fun e => !(MEvent.isDbWrite e))).all (fun e => !(MEvent.isCacheDelete e))

theorem get_cache_key_user (s : String) :
    get_cache_key "user" (some s) = "user_" ++ s := by
  apply String.ext
  simp only [get_cache_key, String.data_append]
  rw [show ("user").data ++ ("_").data = ("user_").data from rfl]

theorem tag_key_inj {u v : String} (h : "tag_" ++ u = "tag_" ++ v) : u = v := by
  apply String.ext
  have hd := congrArg String.data h
  simp only [String.data_append] at hd
  exact List.append_cancel_left hd

theorem sset_sdel_same (st : Store) (k : String) (v : CVal) (t : Nat) :
    sset (sdel st k) k v t = sset st k v t := by
  simp only [sset, sdel, List.filter_filter]
  congr 1
  apply List.filter_congr
  intro e _
  by_cases h : e.1 = k <;> simp [h]

theorem sgetEntry_tags_foldl_frame (key : String) (timeout : Nat)
    (tags : List String) (st : Store) (k : String)
    (h : ∀ t ∈ tags, ("tag_" ++ t) ≠ k) :
    sgetEntry (tags.foldl (tagStep key timeout) st) k = sgetEntry st k := by
  induction tags generalizing st with
  | nil => rfl
  | cons t ts ih =>
    simp only [List.foldl_cons]
    rw [ih _ (fun u hu => h u (List.mem_cons_of_mem t hu))]
    exact sgetEntry_sset_ne _ _ _ _ _ (fun hc => h t (List.mem_cons_self t ts) hc.symm)

theorem sgetEntry_tags_foldl_tag (key : String) (timeout : Nat)
    (tags : List String) (st : Store) (t : String)
    (h : t ∈ tags ∨ ∃ ks₀, sgetEntry st ("tag_" ++ t)
        = some ⟨CVal.tagSet ks₀, timeout⟩ ∧ key ∈ ks₀) :
    ∃ ks, sgetEntry (tags.foldl (tagStep key timeout) st) ("tag_" ++ t)
        = some ⟨CVal.tagSet ks, timeout⟩ ∧ key ∈ ks := by
  induction tags generalizing st with
  | nil =>
    rcases h with h | ⟨ks₀, hks, hkey⟩
    · exact absurd h (List.not_mem_nil t)
    · exact ⟨ks₀, hks, hkey⟩
  | cons t' ts ih =>
    simp only [List.foldl_cons]
    have hstep : tagStep key timeout st t'
        = sset st ("tag_" ++ t') (CVal.tagSet
            ((match sget st ("tag_" ++ t') with
              | some (CVal.tagSet ks) => ks
              | _ => []).insert key)) timeout := rfl
    by_cases he : t = t'
    · subst he
      apply ih
      right
      refine ⟨(match sget st ("tag_" ++ t) with
               | some (CVal.tagSet ks) => ks
               | _ => []).insert key, ?_, List.mem_insert_self key _⟩
      rw [hstep]
      exact sgetEntry_sset_self _ _ _ _
    · apply ih
      rcases h with h | ⟨ks₀, hks, hkey⟩
      · rcases List.mem_cons.mp h with h' | h'
        · exact absurd h' he
        · exact Or.inl h'
      · right
        refine ⟨ks₀, ?_, hkey⟩
        rw [hstep, sgetEntry_sset_ne st ("tag_" ++ t') ("tag_" ++ t) _ timeout
          (fun hc => he (tag_key_inj hc))]
        exact hks

theorem foldl_sdel_eq_filter (ks : List String) (st : Store) :
    ks.foldl (fun s k => sdel s k) st = st.filter (fun e => !(ks.contains e.1)) := by
  induction ks generalizing st with
  | nil => simp
  | cons k ks ih =>
    simp only [List.foldl_cons]
    rw [ih]
    simp only [sdel, List.filter_filter]
    apply List.filter_congr
    intro e _
    by_cases h : e.1 = k <;> simp [h]

theorem sget_foldl_sdel_mem (ks : List String) (st : Store) (k : String)
    (h : k ∈ ks) : sget (ks.foldl (fun s k => sdel s k) st) k = none := by
  rw [foldl_sdel_eq_filter]
  have hnone : ∀ e ∈ st.filter (fun e => !(ks.contains e.1)),
      ¬((fun (e : String × CEntry) => e.1 == k) e = true) := by
    intro e he hbeq
    have hp := (List.mem_filter.mp he).2
    have hek : e.1 = k := eq_of_beq hbeq
    have hc : ks.contains k = true := List.elem_iff.mpr h
    rw [hek, hc] at hp
    simp at hp
  simp only [sget]
  rw [List.find?_eq_none.mpr hnone]
  rfl

/-- **C1.**  (Corrected.)  In `perform_create` and `perform_update` every
cache delete is issued strictly after the underlying write; in
`perform_destroy` both cache deletes are issued strictly before the
underlying delete of the record. -/
theorem c1_mutation_invalidation_order :
    deletesAfterWrite perform_create_trace = true ∧
    (∀ i : Nat, deletesAfterWrite (perform_update_trace i) = true) ∧
    (∀ i : Nat, deletesBeforeWrite (perform_destroy_trace i) = true) :=
  ⟨rfl, fun _ => rfl, fun _ => rfl⟩

/-- **C1, counterexample.**  The claim that every mutating operation issues
its cache deletes strictly after the underlying write fails for
`perform_destroy` (here at record id 1): its trace has both cache deletes
before the write. -/
theorem c1_destroy_counterexample :
    deletesAfterWrite (perform_destroy_trace 1) = false := rfl

/-- **C9.**  When gathering statistics raises, `get_cache_stats` catches the
exception and returns the structured payload `{error, total_keys: 0,
keys: []}` (it is a total function: nothing escapes the boundary, and
`cache_stats_view` returns the payload unchanged); on success the sampled
key list is the first 100 keys, hence never longer than 100. -/
theorem c9_stats_error_payload :
    (∀ e, get_cache_stats (Except.error e) = StatsPayload.err e 0 []) ∧
    (∀ intro, cache_stats_view intro = get_cache_stats intro) ∧
    (∀ info, (get_cache_stats (Except.ok info)).sampled = info.keys.take 100 ∧
      ((get_cache_stats (Except.ok info)).sampled).length ≤ 100) := by
  refine ⟨fun e => rfl, fun intro => rfl, fun info => ⟨rfl, ?_⟩⟩
  simp [get_cache_stats, StatsPayload.sampled]

/-- **C8.**  `clear_all_cache` on a store holding N keys returns N and
leaves the store empty; calling it again on the result returns 0. -/
theorem c8_clear_all_flushes (st : Store) :
    (clear_all_cache st).2 = st.length ∧ (clear_all_cache st).1 = [] ∧
    (clear_all_cache (clear_all_cache st).1).2 = 0 := by
  have hempty : (clear_all_cache st).1 = [] := by
    show (st.map Prod.fst).foldl (fun s k => sdel s k) st = []
    rw [foldl_sdel_eq_filter, List.filter_eq_nil_iff]
    intro e he
    have hm : e.1 ∈ st.map Prod.fst := List.mem_map_of_mem Prod.fst he
    have hc : (st.map Prod.fst).contains e.1 = true := List.elem_iff.mpr hm
    simp only [hc, Bool.not_true]
    exact fun h => Bool.false_ne_true h
  refine ⟨by simp [clear_all_cache], hempty, ?_⟩
  rw [hempty]
  rfl

/-- **C3.**  On the (prefix, identifier) pairs valid for this program —
`("user_list", none)` and `("user", some id)` with a non-empty decimal id —
`get_cache_key` is injective: distinct pairs yield distinct keys.  (It is
pure and deterministic by construction: a function of its arguments
only.) -/
theorem c3_get_cache_key_injective (p₁ p₂ : String × Option String)
    (h₁ : validKeyArgs p₁) (h₂ : validKeyArgs p₂) (hne : p₁ ≠ p₂) :
    get_cache_key p₁.1 p₁.2 ≠ get_cache_key p₂.1 p₂.2 := by
  have digits_ne_list : ∀ s : String, s.data.all Char.isDigit = true →
      "user_list" ≠ "user" ++ "_" ++ s := by
    intro s hdig heq
    have hd := congrArg String.data heq
    simp only [String.data_append] at hd
    have hs : s.data = ['l', 'i', 's', 't'] := by
      have : ("user_list").data
          = ("user").data ++ ("_").data ++ s.data := hd
      have h2 : ['l', 'i', 's', 't'] = s.data := by simpa using this
      exact h2.symm
    rw [hs] at hdig
    simp [List.all_cons] at hdig
  rcases h₁ with ⟨ha1, ha2⟩ | ⟨ha1, s₁, ha2, _, hdig₁⟩ <;>
    rcases h₂ with ⟨hb1, hb2⟩ | ⟨hb1, s₂, hb2, _, hdig₂⟩
  · exact absurd (Prod.ext_iff.mpr ⟨ha1.trans hb1.symm, ha2.trans hb2.symm⟩) hne
  · rw [ha1, ha2, hb1, hb2]
    exact digits_ne_list s₂ hdig₂
  · rw [ha1, ha2, hb1, hb2]
    exact fun heq => digits_ne_list s₁ hdig₁ heq.symm
  · rw [ha1, ha2, hb1, hb2]
    intro heq
    have hd := congrArg String.data heq
    simp only [get_cache_key, String.data_append] at hd
    have hs : s₁ = s₂ := String.ext (by simpa using hd)
    exact hne (Prod.ext_iff.mpr ⟨ha1.trans hb1.symm,
      by rw [ha2, hb2, hs]⟩)

/-- **C3, witness.**  The two key shapes the program uses are distinct:
`key("user_list")` differs from `key("user", "5")`. -/
theorem c3_get_cache_key_injective_witness :
    get_cache_key "user_list" none ≠ get_cache_key "user" (some "5") :=
  c3_get_cache_key_injective ("user_list", none) ("user", some "5")
    (Or.inl ⟨rfl, rfl⟩)
    (Or.inr ⟨rfl, "5", rfl, by decide, by decide⟩)
    (by decide)

/-- **C7.**  Either signal hook, fired for a record with id `i`, deletes
exactly `user_list` and `user_{i}`: both read back as absent, every other
key is untouched, and the delete-hook performs the same two deletions as
the save-hook (using the id captured from the still-referenced instance,
which the hook receives as a parameter). -/
theorem c7_signal_hook_exact_keys (st : Store) (i : Nat) :
    sget (invalidate_user_cache_on_save st i) "user_list" = none ∧
    sget (invalidate_user_cache_on_save st i) ("user_" ++ toString i) = none ∧
    (∀ k, k ≠ "user_list" → k ≠ "user_" ++ toString i →
      sget (invalidate_user_cache_on_save st i) k = sget st k) ∧
    invalidate_user_cache_on_delete st i = invalidate_user_cache_on_save st i := by
  have hkey : get_cache_key "user" (some (toString i)) = "user_" ++ toString i :=
    get_cache_key_user (toString i)
  have hdef : invalidate_user_cache_on_save st i
      = sdel (sdel st "user_list") ("user_" ++ toString i) := by
    rw [invalidate_user_cache_on_save, hkey]; rfl
  refine ⟨?_, ?_, ?_, rfl⟩
  · rw [hdef]
    by_cases h : "user_list" = "user_" ++ toString i
    · rw [← h]; exact sget_sdel_self _ _
    · rw [sget_sdel_ne _ _ _ h]
      exact sget_sdel_self _ _
  · rw [hdef]
    exact sget_sdel_self _ _
  · intro k h1 h2
    rw [hdef, sget_sdel_ne _ _ _ h2, sget_sdel_ne _ _ _ h1]

/-- **C7, witness.**  On a store holding `user_list`, `user_3` and an
unrelated key, the save hook for id 3 empties the two scoped keys and
leaves the unrelated key with its value. -/
theorem c7_signal_hook_exact_keys_witness :
    sget (invalidate_user_cache_on_save
      (sset (sset (sset [] "user_list" (CVal.uList []) 300)
        "user_3" (CVal.uData ⟨3, "c"⟩) 300) "other" (CVal.uData ⟨9, "z"⟩) 300) 3)
      "other" = some (CVal.uData ⟨9, "z"⟩) := by
  rw [(c7_signal_hook_exact_keys
    (sset (sset (sset [] "user_list" (CVal.uList []) 300)
      "user_3" (CVal.uData ⟨3, "c"⟩) 300) "other" (CVal.uData ⟨9, "z"⟩) 300) 3).2.2.1
    "other" (by decide) (by decide)]
  decide

/-- **C6.**  Read-through on both reads: on a hit (a non-`None` cached
value) the handler answers with the cached value verbatim, leaving the
store alone and never querying the system of record; on a miss (key
absent) it builds the canonical payload from the system of record, stores
it under the key with the configured TTL, and returns the fresh value. -/
theorem c6_read_through_contract (db : List User) (st : Store) (ttl : Nat) :
    (∀ v, sget st "user_list" = some v → v ≠ CVal.vnone →
      listView true db st ttl = (v, st, false)) ∧
    (sget st "user_list" = none →
      listView true db st ttl
        = (serialize_many db, sset st "user_list" (serialize_many db) ttl, true)) ∧
    (∀ pk v, sget st ("user_" ++ toString pk) = some v → v ≠ CVal.vnone →
      retrieveView true db pk st ttl = .ok (v, st, false)) ∧
    (∀ pk u, sget st ("user_" ++ toString pk) = none → db_find db pk = some u →
      retrieveView true db pk st ttl
        = .ok (serialize u, sset st ("user_" ++ toString pk) (serialize u) ttl, true)) := by
  refine ⟨?_, ?_, ?_, ?_⟩
  · intro v hv hne
    simp [listView, cache_get, djGet, get_cache_key, hv, hne]
  · intro hv
    simp [listView, cache_get, cache_set, djGet, get_cache_key, hv]
  · intro pk v hv hne
    simp [retrieveView, cache_get, djGet, get_cache_key_user, hv, hne]
  · intro pk u hv hu
    simp [retrieveView, cache_get, cache_set, djGet, get_cache_key_user, hv, hu]

/-- **C6, witness.**  A second `retrieve(5)` against a store populated with
`user_5` answers from the cache without touching the system of record. -/
theorem c6_read_through_contract_witness :
    retrieveView true [] 5 (sset [] "user_5" (CVal.uData ⟨5, "e"⟩) 300) 300
      = .ok (CVal.uData ⟨5, "e"⟩, sset [] "user_5" (CVal.uData ⟨5, "e"⟩) 300, false) :=
  (c6_read_through_contract [] (sset [] "user_5" (CVal.uData ⟨5, "e"⟩) 300) 300).2.2.1
    5 (CVal.uData ⟨5, "e"⟩) (by decide) (by decide)

/-- **C10.**  A stored `None` is read back as a miss: with `None` under the
key, both reads recompute from the system of record, overwrite the entry,
and behave exactly as they would on the store with the entry deleted. -/
theorem c10_stored_none_is_miss (db : List User) (st : Store) (ttl : Nat) :
    (sget st "user_list" = some CVal.vnone →
      listView true db st ttl
        = (serialize_many db, sset st "user_list" (serialize_many db) ttl, true) ∧
      listView true db st ttl = listView true db (sdel st "user_list") ttl) ∧
    (∀ pk, sget st ("user_" ++ toString pk) = some CVal.vnone →
      retrieveView true db pk st ttl
        = retrieveView true db pk (sdel st ("user_" ++ toString pk)) ttl ∧
      (∀ u, db_find db pk = some u →
        retrieveView true db pk st ttl
          = .ok (serialize u, sset st ("user_" ++ toString pk) (serialize u) ttl, true))) := by
  constructor
  · intro hv
    have hdel : sget (sdel st "user_list") "user_list" = none := sget_sdel_self _ _
    constructor
    · simp [listView, cache_get, cache_set, djGet, get_cache_key, hv]
    · simp [listView, cache_get, cache_set, djGet, get_cache_key, hv, hdel,
        sset_sdel_same]
  · intro pk hv
    have hdel : sget (sdel st ("user_" ++ toString pk)) ("user_" ++ toString pk) = none :=
      sget_sdel_self _ _
    constructor
    · cases hu : db_find db pk with
      | none =>
        simp [retrieveView, cache_get, cache_set, djGet, get_cache_key_user, hv, hdel, hu]
      | some u =>
        simp [retrieveView, cache_get, cache_set, djGet, get_cache_key_user, hv, hdel, hu,
          sset_sdel_same]
    · intro u hu
      simp [retrieveView, cache_get, cache_set, djGet, get_cache_key_user, hv, hu]

/-- **C10, witness.**  With `None` stored under `user_list`, the list read
recomputes from the system of record and overwrites the entry. -/
theorem c10_stored_none_is_miss_witness :
    listView true [⟨1, "a"⟩] (sset [] "user_list" CVal.vnone 300) 300
      = (serialize_many [⟨1, "a"⟩],
         sset (sset [] "user_list" CVal.vnone 300) "user_list"
           (serialize_many [⟨1, "a"⟩]) 300, true) :=
  ((c10_stored_none_is_miss [⟨1, "a"⟩] (sset [] "user_list" CVal.vnone 300) 300).1
    (by decide)).1

/-- **C2.**  (Spec-modelled adapter.)  With the store unreachable, a read
request still succeeds: the failed lookup degrades to a miss and the
handler returns the canonical payload computed from the system of record;
nothing is cached and no exception crosses the handler boundary. -/
theorem c2_cache_outage_never_fails_reads (db : List User) (st : Store) (ttl : Nat) :
    listView false db st ttl = (serialize_many db, st, true) ∧
    (∀ pk u, db_find db pk = some u →
      retrieveView false db pk st ttl = .ok (serialize u, st, true)) := by
  constructor
  · simp [listView, cache_get, cache_set]
  · intro pk u hu
    simp [retrieveView, cache_get, cache_set, hu]

/-- **C2, witness.**  `retrieve(5)` with the cache store down still returns
the canonical serialized record. -/
theorem c2_cache_outage_never_fails_reads_witness :
    retrieveView false [⟨5, "e"⟩] 5 [] 300 = .ok (CVal.uData ⟨5, "e"⟩, [], true) :=
  (c2_cache_outage_never_fails_reads [⟨5, "e"⟩] [] 300).2 5 ⟨5, "e"⟩ (by decide)

/-- The store of the spec's tagging scenario: `add('k1', ['t1'])` then
`add('k2', ['t1'])`, both with the default 300-second timeout. -/
def twoTaggedStore : Store :=
  cache_with_tags
    (cache_with_tags [] "k1" (CVal.uData ⟨1, "a"⟩) ["t1"] 300)
    "k2" (CVal.uData ⟨2, "b"⟩) ["t1"] 300

/-- **C4.**  `invalidate_by_tag` returns 0 on an absent tag; on a present
tag it deletes every member key and then the tag index key, returning the
member count.  Concretely, after `add('k1', ['t1'])` and `add('k2',
['t1'])` it deletes `k1`, `k2` and `tag_t1` and returns 2, and a second
call returns 0. -/
theorem c4_invalidate_by_tag_contract (st : Store) (tag : String) :
    (sget st ("tag_" ++ tag) = none → (invalidate_by_tag st tag).2 = 0) ∧
    (∀ ks, sget st ("tag_" ++ tag) = some (CVal.tagSet ks) →
      (invalidate_by_tag st tag).2 = ks.length ∧
      (∀ k ∈ ks, sget (invalidate_by_tag st tag).1 k = none) ∧
      sget (invalidate_by_tag st tag).1 ("tag_" ++ tag) = none) ∧
    (invalidate_by_tag twoTaggedStore "t1").2 = 2 ∧
    sget (invalidate_by_tag twoTaggedStore "t1").1 "k1" = none ∧
    sget (invalidate_by_tag twoTaggedStore "t1").1 "k2" = none ∧
    sget (invalidate_by_tag twoTaggedStore "t1").1 "tag_t1" = none ∧
    (invalidate_by_tag (invalidate_by_tag twoTaggedStore "t1").1 "t1").2 = 0 := by
  refine ⟨?_, ?_, by decide, by decide, by decide, by decide, by decide⟩
  · intro h
    simp [invalidate_by_tag, h]
  · intro ks hks
    have hdef : invalidate_by_tag st tag
        = (sdel (ks.foldl (fun s k => sdel s k) st) ("tag_" ++ tag), ks.length) := by
      simp [invalidate_by_tag, hks]
    refine ⟨by rw [hdef], ?_, ?_⟩
    · intro k hk
      rw [hdef]
      by_cases he : k = "tag_" ++ tag
      · rw [he]
        exact sget_sdel_self _ _
      · rw [sget_sdel_ne _ _ _ he]
        exact sget_foldl_sdel_mem ks st k hk
    · rw [hdef]
      exact sget_sdel_self _ _

/-- **C4, witness.**  Invalidating a tag that was never added returns 0. -/
theorem c4_invalidate_by_tag_contract_witness :
    (invalidate_by_tag [] "tx").2 = 0 :=
  (c4_invalidate_by_tag_contract [] "tx").1 (by decide)

/-- **C5.**  `cache_with_tags` stores the data entry under the key with the
given timeout, and rewrites each tag's member set — the previous set plus
the key — under `tag_{tag}` with that same timeout; consequently after two
adds under the same tag the tag index carries only the most recent
timeout (here 5, not 100). -/
theorem c5_tag_index_rewritten_with_data_ttl (st : Store) (key : String)
    (data : CVal) (tags : List String) (timeout : Nat)
    (hk : ∀ t ∈ tags, "tag_" ++ t ≠ key) :
    sgetEntry (cache_with_tags st key data tags timeout) key = some ⟨data, timeout⟩ ∧
    (∀ t ∈ tags, ∃ ks,
      sgetEntry (cache_with_tags st key data tags timeout) ("tag_" ++ t)
        = some ⟨CVal.tagSet ks, timeout⟩ ∧ key ∈ ks) ∧
    (sgetEntry (cache_with_tags
        (cache_with_tags [] "k1" (CVal.uData ⟨1, "a"⟩) ["t1"] 100)
        "k2" (CVal.uData ⟨2, "b"⟩) ["t1"] 5) "tag_t1").map CEntry.ttl = some 5 := by
  refine ⟨?_, ?_, by decide⟩
  · rw [cache_with_tags, sgetEntry_tags_foldl_frame key timeout tags _ key hk]
    exact sgetEntry_sset_self _ _ _ _
  · intro t ht
    exact sgetEntry_tags_foldl_tag key timeout tags _ t (Or.inl ht)

/-- **C5, witness.**  `add('k1', ['t1'], 300)` stores the data entry with
timeout 300. -/
theorem c5_tag_index_rewritten_with_data_ttl_witness :
    sgetEntry (cache_with_tags [] "k1" (CVal.uData ⟨1, "a"⟩) ["t1"] 300) "k1"
      = some ⟨CVal.uData ⟨1, "a"⟩, 300⟩ :=
  (c5_tag_index_rewritten_with_data_ttl [] "k1" (CVal.uData ⟨1, "a"⟩) ["t1"] 300
    (by decide)).1

end PyBreak
